import Mathlib

/-!
Verification development for the interface-reconciliation subsystem of the
mach_r repository: the artifact synthesizer (src/synthesizer.py) and the
compatibility scorer (src/ipc_mapper.py).

The Python code extracts symbols with regular expressions.  Each pattern used
by the code is embedded here as an executable character-list scanner with the
same matching semantics (leftmost match, greedy/lazy quantifier priority) on
the inputs the development evaluates:

  defines  : findall  [caret]#define\s+(\w+).*$          (MULTILINE)
             search   [caret](#define\s+NAME.*?)$        (MULTILINE)
  typedefs : findall  [caret]typedef\s+.*?\s+(\w+);      (MULTILINE)
             search   (typedef\s+.*?\s+NAME;)            (DOTALL)
  functions: findall  [caret](?:extern\s+)?(?:\w+\s+)+(\w+)\s*\([^)]*\); (MULTILINE)
             search   ((?:extern\s+)?(?:\w+\s+)+NAME\s*\([^)]*\);)

Word characters are modelled at the ASCII level (the identifiers the code
handles), and the anchored per-line patterns are modelled per line; a
whitespace run inside an anchored pattern crossing a newline is the one
corner not modelled, and no theorem below depends on it.

Python set iteration order is not a function of the set contents (string
hashing is randomized per process), so every place the code renders
', '.join over a set of source names is modelled by an explicit enumeration
parameter joinOrd applied to the insertion-ordered member list.
-/

namespace MachR

/-- Python regex class \s at the ASCII level: space, tab, newline, carriage
return, vertical tab, form feed. -/
def isPySpace (c : Char) : Bool :=
  c = ' ' || c = '\t' || c = '\n' || c = '\r' || c = Char.ofNat 11 || c = Char.ofNat 12

/-- Python regex class \w at the ASCII level: letters, digits, underscore. -/
def isPyWord (c : Char) : Bool :=
  c.isAlphanum || c = '_'

/-- Match a literal character sequence at the start of the input and return
the remainder, as the regex engine does for a literal. -/
def dropLit : List Char → List Char → Option (List Char)
  | [], cs => some cs
  | _, [] => none
  | p :: ps, c :: cs => if c = p then dropLit ps cs else none

/-- The line decomposition giving the positions where MULTILINE [caret]
anchors: position 0 and every position following a newline. -/
def splitLines : List Char → List (List Char)
  | [] => [[]]
  | c :: cs =>
    if c = '\n' then [] :: splitLines cs
    else
      match splitLines cs with
      | l :: ls => (c :: l) :: ls
      | [] => [[c]]

/-- Findall body of the macro pattern on one line:
[caret]#define\s+(\w+).*$ captures the maximal word run after the first
whitespace run following the #define directive. -/
def defineNameOfLine (line : List Char) : Option String :=
  match dropLit ("#define".toList) line with
  | none => none
  | some r =>
    match r with
    | [] => none
    | c :: r2 =>
      if isPySpace c then
        let w := (r2.dropWhile isPySpace).takeWhile isPyWord
        if w.isEmpty then none else some (String.mk w)
      else none

/-- Search hit of [caret](#define\s+NAME.*?)$ on one line: the directive,
at least one whitespace, then the literal NAME as a prefix of the rest.
NAME is always a findall-captured identifier, so it starts with a word
character and the greedy whitespace run cannot be backtracked into it. -/
def defineLineHit (name : String) (line : List Char) : Bool :=
  match dropLit ("#define".toList) line with
  | none => false
  | some r =>
    match r with
    | [] => false
    | c :: r2 =>
      if isPySpace c then (dropLit name.toList (r2.dropWhile isPySpace)).isSome
      else false

/-- re.search of the macro resolution pattern over the whole content:
the captured group is the first matching line in content order
(synthesizer.py lines 168 to 171). -/
def defineSearch (name : String) (content : String) : Option String :=
  (splitLines content.toList).findSome? fun l =>
    if defineLineHit name l then some (String.mk l) else none

/-- All macro names findall extracts from a content, in line order
(synthesizer.py line 134). -/
def extractDefines (content : String) : List String :=
  (splitLines content.toList).filterMap defineNameOfLine

/-- Scan for the first completion \s+(\w+); of the lazy typedef findall
pattern: the earliest whitespace followed directly by a nonempty word run
and a semicolon; the captured group is that word run. -/
def tdScanA : List Char → Option (List Char)
  | [] => none
  | c :: rest =>
    if isPySpace c then
      let r2 := rest.dropWhile isPySpace
      let w := r2.takeWhile isPyWord
      match w, r2.drop w.length with
      | _ :: _, ';' :: _ => some w
      | _, _ => tdScanA rest
    else tdScanA rest

/-- Findall body of [caret]typedef\s+.*?\s+(\w+); on one line.  The first
\s+ is greedy, so the engine first looks for a completion strictly after
the leading whitespace run; only when none exists does it back the run off
by one and accept a word that follows the run directly, which needs the
run to hold at least two whitespace characters. -/
def typedefNameOfLine (line : List Char) : Option String :=
  match dropLit ("typedef".toList) line with
  | none => none
  | some b =>
    match b with
    | [] => none
    | c :: _ =>
      if isPySpace c then
        let m := (b.takeWhile isPySpace).length
        let a := b.dropWhile isPySpace
        match tdScanA a with
        | some w => some (String.mk w)
        | none =>
          if 2 ≤ m then
            let w := a.takeWhile isPyWord
            match w, a.drop w.length with
            | _ :: _, ';' :: _ => some (String.mk w)
            | _, _ => none
          else none
      else none

/-- All type alias names findall extracts from a content, in line order
(synthesizer.py line 139). -/
def extractTypedefs (content : String) : List String :=
  (splitLines content.toList).filterMap typedefNameOfLine

/-- Scan for the first completion \s+NAME; of the lazy typedef search
pattern (NAME literal): everything consumed up to and including the
semicolon of the earliest whitespace character followed directly by NAME
and a semicolon. -/
def tdSearchScan (name : List Char) : List Char → Option (List Char)
  | [] => none
  | c :: rest =>
    if isPySpace c then
      match dropLit (name ++ [';']) rest with
      | some _ => some (c :: (name ++ [';']))
      | none => (tdSearchScan name rest).map (c :: ·)
    else (tdSearchScan name rest).map (c :: ·)

/-- Typedef search body once the literal typedef has been consumed: the
greedy leading whitespace run, then either a completion strictly after the
run, or, when the run holds at least two characters, NAME; directly at the
run boundary.  Returns the consumed characters after the typedef literal. -/
def typedefSearchAt (name : List Char) (cs : List Char) : Option (List Char) :=
  match cs with
  | [] => none
  | c :: _ =>
    if isPySpace c then
      let run := cs.takeWhile isPySpace
      let a := cs.dropWhile isPySpace
      match tdSearchScan name a with
      | some span => some (run ++ span)
      | none =>
        if 2 ≤ run.length ∧ (dropLit (name ++ [';']) a).isSome then
          some (run ++ (name ++ [';']))
        else none
    else none

/-- Leftmost-start scan of the DOTALL pattern (typedef\s+.*?\s+NAME;):
the anchor-free search tries every start position in order. -/
def tdSearchGo (name : List Char) : List Char → Option String
  | [] => none
  | c :: rest =>
    match dropLit ("typedef".toList) (c :: rest) with
    | some b =>
      match typedefSearchAt name b with
      | some span => some (String.mk ("typedef".toList ++ span))
      | none => tdSearchGo name rest
    | none => tdSearchGo name rest

/-- re.search of the typedef resolution pattern (typedef\s+.*?\s+NAME;)
with DOTALL over the whole content (synthesizer.py lines 184 to 187). -/
def typedefSearch (name : String) (content : String) : Option String :=
  tdSearchGo name.toList content.toList

/-- Tail \s*\([^)]*\); of both function patterns: optional whitespace, an
opening parenthesis, a greedy run of non-closing characters (newlines
included), the closing parenthesis and a semicolon directly after it.
Returns the consumed characters. -/
def funcTailAfterName (cs : List Char) : Option (List Char) :=
  let sp := cs.takeWhile isPySpace
  match cs.drop sp.length with
  | '(' :: r2 =>
    let inside := r2.takeWhile (fun c => !(c = ')'))
    match r2.drop inside.length with
    | ')' :: ';' :: _ => some (sp ++ '(' :: (inside ++ [')', ';']))
    | _ => none
  | _ => none

/-- Match of the function search pattern (?:\w+\s+)+NAME\s*\([^)]*\); at a
fixed start position, NAME literal.  The extern group of the pattern is
one more word-plus-whitespace unit, so it is subsumed by the repeated
group.  At most one unit count can complete the pattern, because a
completable NAME is followed by a parenthesis, which no further unit can
consume; so trying NAME before extending the unit run returns exactly the
engine result.  Fuel bounds the unit count by the input length. -/
def funcMatchAtSearch (name : List Char) : Nat → List Char → Option (List Char)
  | 0, _ => none
  | fuel + 1, cs =>
    let w := cs.takeWhile isPyWord
    let r1 := cs.drop w.length
    let sp := r1.takeWhile isPySpace
    if w.isEmpty || sp.isEmpty then none
    else
      let r2 := r1.drop sp.length
      let direct :=
        match dropLit name r2 with
        | some r3 => (funcTailAfterName r3).map (fun tail => name ++ tail)
        | none => none
      match direct with
      | some span => some (w ++ sp ++ span)
      | none => (funcMatchAtSearch name fuel r2).map (fun s => w ++ sp ++ s)

/-- Leftmost-start scan of the anchor-free function search pattern. -/
def funcSearchGo (name : List Char) (fuel : Nat) : List Char → Option String
  | [] => none
  | c :: rest =>
    match funcMatchAtSearch name fuel (c :: rest) with
    | some span => some (String.mk span)
    | none => funcSearchGo name fuel rest

/-- re.search of the function resolution pattern
((?:extern\s+)?(?:\w+\s+)+NAME\s*\([^)]*\);) over the whole content, no
anchors (synthesizer.py lines 201 to 204). -/
def funcSearch (name : String) (content : String) : Option String :=
  funcSearchGo name.toList content.toList.length content.toList

/-- Match of the findall pattern (?:\w+\s+)+(\w+)\s*\([^)]*\); at a fixed
start: the captured name is the maximal word run directly before the
parenthesised argument list.  Returns the name and the match length. -/
def funcMatchAtCapture : Nat → List Char → Option (String × Nat)
  | 0, _ => none
  | fuel + 1, cs =>
    let w := cs.takeWhile isPyWord
    let r1 := cs.drop w.length
    let sp := r1.takeWhile isPySpace
    if w.isEmpty || sp.isEmpty then none
    else
      let r2 := r1.drop sp.length
      let w2 := r2.takeWhile isPyWord
      let direct :=
        if w2.isEmpty then none
        else
          (funcTailAfterName (r2.drop w2.length)).map
            (fun tail => (String.mk w2, w2.length + tail.length))
      match direct with
      | some nl => some (nl.1, w.length + sp.length + nl.2)
      | none =>
        match funcMatchAtCapture fuel r2 with
        | some nl => some (nl.1, w.length + sp.length + nl.2)
        | none => none

/-- Findall walk for the MULTILINE function pattern: candidate starts are
line starts, matches do not overlap, and scanning resumes directly after
each match (never at a line start, since a match ends at a semicolon). -/
def funcFindallGo : Nat → List Char → Bool → List String
  | 0, _, _ => []
  | _ + 1, [], _ => []
  | fuel + 1, c :: rest, atStart =>
    if atStart then
      match funcMatchAtCapture (c :: rest).length (c :: rest) with
      | some nl => nl.1 :: funcFindallGo fuel ((c :: rest).drop nl.2) false
      | none => funcFindallGo fuel rest (c = '\n')
    else funcFindallGo fuel rest (c = '\n')

/-- All function declaration names findall extracts from a content
(synthesizer.py line 144). -/
def extractFunctions (content : String) : List String :=
  funcFindallGo content.toList.length content.toList true

/-- The defaultdict(set) update all_X[name].add(system): the mapping is an
association list in first-insertion key order, each value the
insertion-ordered duplicate-free list of contributing systems. -/
def addSym (m : List (String × List String)) (name sys : String) :
    List (String × List String) :=
  match m with
  | [] => [(name, [sys])]
  | (n, ss) :: rest =>
    if n = name then (n, if sys ∈ ss then ss else ss ++ [sys]) :: rest
    else (n, ss) :: addSym rest name sys

/-- The inner extraction loop: add every extracted name for one system
(synthesizer.py lines 134 to 146). -/
def addSyms (m : List (String × List String)) (sys : String) :
    List String → List (String × List String)
  | [] => m
  | n :: rest => addSyms (addSym m n sys) sys rest

/-- The outer loop over contents.items() in dict order, folding every
extraction of one kind into the name-to-systems mapping. -/
def buildIndexAux (ext : String → List String)
    (acc : List (String × List String)) :
    List (String × String) → List (String × List String)
  | [] => acc
  | sc :: rest => buildIndexAux ext (addSyms acc sc.1 (ext sc.2)) rest

/-- The name-to-systems mapping one of all_defines, all_typedefs,
all_functions holds after the extraction loops. -/
def buildIndex (ext : String → List String) (contents : List (String × String)) :
    List (String × List String) :=
  buildIndexAux ext [] contents

/-- Insertion step of the ascending sort by symbol name that models the
sorted(...) calls of synthesizer.py lines 161, 175 and 194.  Python
compares strings by code points, which is the lexicographic order of the
character lists. -/
def insertByName (p : String × List String) :
    List (String × List String) → List (String × List String)
  | [] => [p]
  | q :: rest =>
    if p.1.toList ≤ q.1.toList then p :: q :: rest else q :: insertByName p rest

/-- Ascending stable sort by symbol name, as sorted() iterates the items. -/
def sortByName : List (String × List String) → List (String × List String)
  | [] => []
  | p :: rest => insertByName p (sortByName rest)

/-- Python str.upper at the ASCII level (identifier characters). -/
def pyUpper (s : String) : String :=
  String.mk (s.toList.map Char.toUpper)

/-- Guard token of synthesizer.py line 149: the literal _SYNTHESIZED_,
then the filename uppercased with the dot replaced by an underscore, then
a trailing underscore.  Only the dot is replaced; both steps act per
character at the ASCII level. -/
def guardToken (filename : String) : String :=
  "_SYNTHESIZED_"
    ++ String.mk (filename.toList.map
        (fun c => if c.toUpper = '.' then '_' else c.toUpper))
    ++ "_"

/-- The resolution loop shared by all three kinds (synthesizer.py lines
166 to 172, 182 to 188, 199 to 205): walk contents.items() in dict order,
skip systems outside the symbol contributor set, return the first
successful search; a failed search falls through to the next system. -/
def resolveFirst (search : String → String → Option String) (name : String)
    (systems : List String) : List (String × String) → Option String
  | [] => none
  | sc :: rest =>
    if sc.1 ∈ systems then
      match search name sc.2 with
      | some body => some body
      | none => resolveFirst search name systems rest
    else resolveFirst search name systems rest

/-- Lines appended for one resolved macro (synthesizer.py lines 161 to
172): a provenance comment when contended, then the first matching
directive line.  joinOrd renders the Python set iteration order of the
contributor set. -/
def defineEntryLines (joinOrd : List String → List String)
    (contents : List (String × String)) (nr : String × List String) :
    List String :=
  (if 1 < nr.2.length then
    ["/* " ++ nr.1 ++ " defined in: "
      ++ String.intercalate ", " (joinOrd nr.2) ++ " */\n"]
   else [])
  ++ (match resolveFirst defineSearch nr.1 nr.2 contents with
      | some body => [body ++ "\n"]
      | none => [])

/-- Lines appended for one resolved type alias (synthesizer.py lines 175
to 191): provenance comment and a HAVE_ guard when contended, then the
first matching span, then the closing endif when contended. -/
def typedefEntryLines (joinOrd : List String → List String)
    (contents : List (String × String)) (nr : String × List String) :
    List String :=
  (if 1 < nr.2.length then
    ["/* " ++ nr.1 ++ " defined in: "
      ++ String.intercalate ", " (joinOrd nr.2) ++ " */\n",
     "#ifndef HAVE_" ++ pyUpper nr.1 ++ "\n",
     "#define HAVE_" ++ pyUpper nr.1 ++ "\n"]
   else [])
  ++ (match resolveFirst typedefSearch nr.1 nr.2 contents with
      | some body => [body ++ "\n"]
      | none => [])
  ++ (if 1 < nr.2.length then ["#endif\n"] else [])

/-- Lines appended for one resolved function declaration (synthesizer.py
lines 194 to 205). -/
def funcEntryLines (joinOrd : List String → List String)
    (contents : List (String × String)) (nr : String × List String) :
    List String :=
  (if 1 < nr.2.length then
    ["/* " ++ nr.1 ++ " available in: "
      ++ String.intercalate ", " (joinOrd nr.2) ++ " */\n"]
   else [])
  ++ (match resolveFirst funcSearch nr.1 nr.2 contents with
      | some body => [body ++ "\n"]
      | none => [])

/-- All Definitions section entry lines, in sorted name order. -/
def defineLines (joinOrd : List String → List String)
    (contents : List (String × String)) : List String :=
  (sortByName (buildIndex extractDefines contents)).flatMap
    (defineEntryLines joinOrd contents)

/-- All Type definitions section entry lines, in sorted name order. -/
def typedefLines (joinOrd : List String → List String)
    (contents : List (String × String)) : List String :=
  (sortByName (buildIndex extractTypedefs contents)).flatMap
    (typedefEntryLines joinOrd contents)

/-- All Function declarations section entry lines, in sorted name order. -/
def funcLines (joinOrd : List String → List String)
    (contents : List (String × String)) : List String :=
  (sortByName (buildIndex extractFunctions contents)).flatMap
    (funcEntryLines joinOrd contents)

/-- The two merged_lines entries of synthesizer.py lines 124 and 125: the
provenance header comment naming the artifact and the contributing
sources in contents.items() dict order. -/
def headerPieces (filename : String) (contents : List (String × String)) :
    List String :=
  ["/*\n * " ++ filename ++ " - Synthesized from multiple OS sources\n",
   " * Sources: " ++ String.intercalate ", " (contents.map Prod.fst)
     ++ "\n */\n\n"]

/-- The merged_lines entries of synthesizer.py lines 150 and 151. -/
def guardOpenPieces (filename : String) : List String :=
  ["#ifndef " ++ guardToken filename ++ "\n",
   "#define " ++ guardToken filename ++ "\n\n"]

/-- The fixed system-configuration block of synthesizer.py lines 154 to
157. -/
def systemConfigPieces : List String :=
  ["/* System configuration */\n",
   "#ifdef SYNTHESIS_MACH\n",
   "  #define USE_MACH_IPC 1\n",
   "#endif\n\n"]

/-- The closing guard entry of synthesizer.py line 207. -/
def guardClosePiece (filename : String) : String :=
  "\n#endif /* " ++ guardToken filename ++ " */\n"

/-- The final ''.join(merged_lines) of synthesizer.py line 209. -/
def concatAll (pieces : List String) : String :=
  String.mk ((pieces.map String.toList).flatten)

/-- synthesize_content of synthesizer.py lines 115 to 209.  With a single
content the raw text is returned unchanged (line 117).  Otherwise the
joined merged_lines list is returned; the base value computed at line 121
is never used and is not modelled.  Calls with an empty contents dict are
unreachable (intelligent_merge returns first, line 91). -/
def synthesize_content (joinOrd : List String → List String)
    (filename : String) (contents : List (String × String)) : String :=
  if contents.length = 1 then (contents.headD ("", "")).2
  else
    concatAll
      (headerPieces filename contents
        ++ guardOpenPieces filename
        ++ systemConfigPieces
        ++ ("/* Definitions */\n" :: defineLines joinOrd contents)
        ++ ("\n/* Type definitions */\n" :: typedefLines joinOrd contents)
        ++ ("\n/* Function declarations */\n" :: funcLines joinOrd contents)
        ++ [guardClosePiece filename])

/-- The symbol names the Definitions section emits entries for, in
emission order. -/
def macroSectionNames (contents : List (String × String)) : List String :=
  (sortByName (buildIndex extractDefines contents)).map Prod.fst

/-- The symbol names the Type definitions section emits entries for, in
emission order. -/
def typeAliasSectionNames (contents : List (String × String)) : List String :=
  (sortByName (buildIndex extractTypedefs contents)).map Prod.fst

/-- The symbol names the Function declarations section emits entries for,
in emission order. -/
def functionSectionNames (contents : List (String × String)) : List String :=
  (sortByName (buildIndex extractFunctions contents)).map Prod.fst

/-- The canonical symbol names the three kind sections emit entries for,
in emission order: sorted macro keys, then sorted type alias keys, then
sorted function declaration keys. -/
def emittedSymbolNames (contents : List (String × String)) : List String :=
  macroSectionNames contents
    ++ typeAliasSectionNames contents
    ++ functionSectionNames contents

/-- Substring test used to state containment of a definition body in a
synthesized artifact. -/
def listHasSub (pat : List Char) : List Char → Bool
  | [] => pat.isEmpty
  | c :: rest => (dropLit pat (c :: rest)).isSome || listHasSub pat rest

/-- String form of the substring test. -/
def pyHasSubstr (pat s : String) : Bool :=
  listHasSub pat.toList s.toList

/-- String form of the prefix test. -/
def pyHasPre (pat s : String) : Bool :=
  (dropLit pat.toList s.toList).isSome

/-- Path selection of intelligent_merge (synthesizer.py lines 83 to 87):
of the find output list for one system, the first entry is read when the
list is nonempty and its first entry is a nonempty string; otherwise the
system contributes nothing. -/
def selectedPath (paths : List String) : Option String :=
  match paths with
  | [] => none
  | p :: _ => if p = "" then none else some p

/-- calculate_compatibility_score of ipc_mapper.py lines 157 to 171 on
the two function-signature key sets.  The guard returning 0 for a system
with no interface record is the empty-set case here; the sets the code
reaches this with are subsets of the fixed 21-name probe list, small
enough that the float arithmetic of the code decides every comparison
below exactly as rational arithmetic does. -/
def calculate_compatibility_score (sigs1 sigs2 : Finset String) : ℚ :=
  if sigs1 = ∅ ∨ sigs2 = ∅ then 0
  else if 0 < (sigs1 ∪ sigs2).card then
    ((sigs1 ∩ sigs2).card : ℚ) / ((sigs1 ∪ sigs2).card : ℚ) * 100
  else 0

/-- One entry of the synthesis-plan conflicts list (ipc_mapper.py lines
221 to 225); the formatted percentage string of the compatibility field
carries the same score the record keeps here. -/
structure ConflictEdge where
  sysA : String
  sysB : String
  score : ℚ
  severity : String

/-- The conflict identification loops of generate_synthesis_plan
(ipc_mapper.py lines 216 to 225): every ordered pair of registered
systems with sysA before sysB, an edge exactly when the score is below
50, severity High below 25 and Medium otherwise. -/
def generate_conflicts (systems : List String) (sigs : String → Finset String) :
    List ConflictEdge :=
  systems.flatMap fun s1 =>
    systems.filterMap fun s2 =>
      if s1 < s2 then
        if calculate_compatibility_score (sigs s1) (sigs s2) < 50 then
          some { sysA := s1, sysB := s2,
                 score := calculate_compatibility_score (sigs s1) (sigs s2),
                 severity :=
                   if calculate_compatibility_score (sigs s1) (sigs s2) < 25
                   then "High" else "Medium" }
        else none
      else none

/-- Contents dict exhibiting the prefix collision of the macro resolution
search: the FOO directive of the first source is preceded by a FOOBAR
directive whose identifier extends FOO. -/
def contentsPrefixClash : List (String × String) :=
  [("mach", "#define FOOBAR 1\n#define FOO 2\n"), ("lites", "#define FOO 3\n")]

/-- Contents dict where FOO is contributed by exactly one source and its
directive line follows a FOOBAR directive in that source. -/
def contentsSingleClash : List (String × String) :=
  [("mach", "#define FOOBAR 1\n#define FOO 2\n"), ("lites", "#define BAZ 9\n")]

/-- Contents dict with one contended macro, for observing the rendering
of the contributor set enumeration. -/
def contentsShared : List (String × String) :=
  [("mach", "#define X 1\n"), ("lites", "#define X 1\n")]

/-- Contents dict whose first source declares the name foo both as a
macro and as a function declaration. -/
def contentsDupKind : List (String × String) :=
  [("mach", "#define foo 1\nextern int foo(void);\n"), ("lites", "#define bar 2\n")]

/-- Contents dict of two macro-only sources used for layout statements. -/
def contentsTwoMacros : List (String × String) :=
  [("mach", "#define A 1\n"), ("gnu", "#define B 2\n")]

/-- Signature-set assignment used to instantiate the conflict loop at a
concrete input: system A probes one function name, system B none. -/
def sigsOneEmpty : String → Finset String :=
  fun s => if s = "A" then {"mach_msg"} else ∅

theorem mem_insertByName (p q : String × List String)
    (l : List (String × List String)) :
    q ∈ insertByName p l ↔ q = p ∨ q ∈ l := by
  induction l with
  | nil => simp [insertByName]
  | cons r rest ih =>
    by_cases h : p.1.toList ≤ r.1.toList
    · rw [insertByName, if_pos h]
      simp [List.mem_cons]
    · rw [insertByName, if_neg h]
      simp [List.mem_cons, ih]
      tauto

theorem insertByName_sorted (p : String × List String)
    (l : List (String × List String))
    (h : l.Sorted (fun a b => a.1 ≤ b.1)) :
    (insertByName p l).Sorted (fun a b => a.1 ≤ b.1) := by
  induction l with
  | nil => simp [insertByName]
  | cons q rest ih =>
    rw [List.sorted_cons] at h
    by_cases hpq : p.1 ≤ q.1
    · rw [insertByName, if_pos (String.le_iff_toList_le.mp hpq),
        List.sorted_cons]
      refine ⟨?_, ?_⟩
      · intro b hb
        rcases List.mem_cons.mp hb with rfl | hb'
        · exact hpq
        · exact le_trans hpq (h.1 b hb')
      · rw [List.sorted_cons]
        exact ⟨h.1, h.2⟩
    · rw [insertByName,
        if_neg (fun hh => hpq (String.le_iff_toList_le.mpr hh)),
        List.sorted_cons]
      refine ⟨?_, ih h.2⟩
      intro b hb
      rcases (mem_insertByName p b rest).mp hb with rfl | hb'
      · exact le_of_not_le hpq
      · exact h.1 b hb'

theorem sortByName_sorted (l : List (String × List String)) :
    (sortByName l).Sorted (fun a b => a.1 ≤ b.1) := by
  induction l with
  | nil => simp [sortByName]
  | cons p rest ih => exact insertByName_sorted p (sortByName rest) ih

theorem insertByName_perm (p : String × List String)
    (l : List (String × List String)) :
    (insertByName p l).Perm (p :: l) := by
  induction l with
  | nil => simp [insertByName]
  | cons q rest ih =>
    by_cases h : p.1.toList ≤ q.1.toList
    · rw [insertByName, if_pos h]
    · rw [insertByName, if_neg h]
      exact (ih.cons q).trans (List.Perm.swap p q rest)

theorem sortByName_perm (l : List (String × List String)) :
    (sortByName l).Perm l := by
  induction l with
  | nil => simp [sortByName]
  | cons p rest ih =>
    exact (insertByName_perm p (sortByName rest)).trans (ih.cons p)

theorem keys_addSym (m : List (String × List String)) (name sys x : String) :
    x ∈ (addSym m name sys).map Prod.fst
      ↔ x ∈ m.map Prod.fst ∨ x = name := by
  induction m with
  | nil => simp [addSym]
  | cons q rest ih =>
    obtain ⟨n, ss⟩ := q
    by_cases h : n = name
    · subst h
      simp [addSym]
      tauto
    · simp [addSym, h, ih]
      tauto

theorem keys_addSyms (sys x : String) (names : List String) :
    ∀ m, x ∈ (addSyms m sys names).map Prod.fst
      ↔ x ∈ m.map Prod.fst ∨ x ∈ names := by
  induction names with
  | nil => intro m; simp [addSyms]
  | cons n rest ih =>
    intro m
    rw [addSyms, ih, keys_addSym]
    simp [List.mem_cons]
    tauto

theorem keys_buildIndexAux (ext : String → List String) (x : String)
    (l : List (String × String)) :
    ∀ acc, x ∈ (buildIndexAux ext acc l).map Prod.fst
      ↔ x ∈ acc.map Prod.fst ∨ ∃ sc ∈ l, x ∈ ext sc.2 := by
  induction l with
  | nil => intro acc; simp [buildIndexAux]
  | cons sc rest ih =>
    intro acc
    rw [buildIndexAux, ih, keys_addSyms]
    simp [List.mem_cons]
    tauto

theorem keys_buildIndex (ext : String → List String) (x : String)
    (contents : List (String × String)) :
    x ∈ (buildIndex ext contents).map Prod.fst
      ↔ ∃ sc ∈ contents, x ∈ ext sc.2 := by
  rw [buildIndex, keys_buildIndexAux]
  simp

theorem keys_sortByName (l : List (String × List String)) (x : String) :
    x ∈ (sortByName l).map Prod.fst ↔ x ∈ l.map Prod.fst := by
  exact ((sortByName_perm l).map Prod.fst).mem_iff

theorem score_eq_formula (A B : Finset String) :
    calculate_compatibility_score A B
      = ((A ∩ B).card : ℚ) / ((A ∪ B).card : ℚ) * 100 := by
  unfold calculate_compatibility_score
  by_cases h : A = ∅ ∨ B = ∅
  · rw [if_pos h]
    rcases h with rfl | rfl
    · simp
    · simp
  · rw [if_neg h]
    have hA : A.Nonempty := by
      rcases Finset.eq_empty_or_nonempty A with hh | hh
      · exact absurd (Or.inl hh) h
      · exact hh
    have hu : 0 < (A ∪ B).card := Finset.card_pos.mpr hA.inl
    rw [if_pos hu]

theorem score_eq_100_iff (A B : Finset String) :
    calculate_compatibility_score A B = 100 ↔ A = B ∧ A ≠ ∅ := by
  constructor
  · intro h
    rcases em (A = ∅ ∨ B = ∅) with he | he
    · rw [calculate_compatibility_score, if_pos he] at h
      exact absurd h (by norm_num)
    · have hA : A ≠ ∅ := fun hh => he (Or.inl hh)
      have hAn : A.Nonempty := Finset.nonempty_iff_ne_empty.mpr hA
      have hu : 0 < (A ∪ B).card := Finset.card_pos.mpr hAn.inl
      rw [score_eq_formula] at h
      have hu' : (((A ∪ B).card : ℚ)) ≠ 0 := by
        exact_mod_cast hu.ne'
      have hdiv : ((A ∩ B).card : ℚ) / ((A ∪ B).card : ℚ) = 1 :=
        mul_right_cancel₀ (by norm_num : (100 : ℚ) ≠ 0)
          (h.trans (one_mul (100 : ℚ)).symm)
      rw [div_eq_iff hu', one_mul] at hdiv
      have hcard : (A ∩ B).card = (A ∪ B).card := by exact_mod_cast hdiv
      have heq : A ∩ B = A ∪ B :=
        Finset.eq_of_subset_of_card_le Finset.inter_subset_union
          (le_of_eq hcard.symm)
      have hab : A ⊆ B := by
        intro x hx
        have hxu : x ∈ A ∪ B := Finset.mem_union_left B hx
        rw [← heq] at hxu
        exact (Finset.mem_inter.mp hxu).2
      have hba : B ⊆ A := by
        intro x hx
        have hxu : x ∈ A ∪ B := Finset.mem_union_right A hx
        rw [← heq] at hxu
        exact (Finset.mem_inter.mp hxu).1
      exact ⟨Finset.Subset.antisymm hab hba, hA⟩
  · rintro ⟨rfl, hA⟩
    have hc : 0 < A.card :=
      Finset.card_pos.mpr (Finset.nonempty_iff_ne_empty.mpr hA)
    rw [score_eq_formula, Finset.inter_self, Finset.union_self,
      div_self (by exact_mod_cast hc.ne' : ((A.card : ℚ)) ≠ 0), one_mul]

theorem score_symm (A B : Finset String) :
    calculate_compatibility_score A B = calculate_compatibility_score B A := by
  rw [score_eq_formula, score_eq_formula, Finset.inter_comm, Finset.union_comm]

/-- C6: the compatibility score of two function-symbol name sets equals
the Jaccard ratio times 100, is 0 whenever either set is empty, is 100
exactly when the sets are equal and nonempty, and is symmetric. -/
theorem calculate_compatibility_score_spec (A B : Finset String) :
    calculate_compatibility_score A B
        = ((A ∩ B).card : ℚ) / ((A ∪ B).card : ℚ) * 100
      ∧ calculate_compatibility_score ∅ B = 0
      ∧ calculate_compatibility_score A ∅ = 0
      ∧ (calculate_compatibility_score A B = 100 ↔ A = B ∧ A ≠ ∅)
      ∧ calculate_compatibility_score A B = calculate_compatibility_score B A := by
  refine ⟨score_eq_formula A B, ?_, ?_, score_eq_100_iff A B, score_symm A B⟩
  · rw [score_eq_formula]
    simp
  · rw [score_eq_formula]
    simp

/-- C7: a conflict edge is listed for an unordered registered pair exactly
when its score is strictly below 50, and every listed edge carries the
pair score with severity High below 25 and Medium from 25 up to below
50; a score of exactly 50 yields no edge. -/
theorem generate_conflicts_spec (systems : List String)
    (sigs : String → Finset String) (s1 s2 : String)
    (h1 : s1 ∈ systems) (h2 : s2 ∈ systems) :
    ((∃ c ∈ generate_conflicts systems sigs, c.sysA = s1 ∧ c.sysB = s2)
        ↔ s1 < s2 ∧ calculate_compatibility_score (sigs s1) (sigs s2) < 50)
      ∧ ∀ c ∈ generate_conflicts systems sigs,
          c.score = calculate_compatibility_score (sigs c.sysA) (sigs c.sysB)
            ∧ c.sysA < c.sysB
            ∧ c.score < 50
            ∧ (c.severity = "High" ↔ c.score < 25)
            ∧ (c.severity = "Medium" ↔ 25 ≤ c.score ∧ c.score < 50) := by
  have hmem : ∀ c : ConflictEdge, c ∈ generate_conflicts systems sigs ↔
      c.sysA ∈ systems ∧ c.sysB ∈ systems ∧ c.sysA < c.sysB
        ∧ calculate_compatibility_score (sigs c.sysA) (sigs c.sysB) < 50
        ∧ c.score = calculate_compatibility_score (sigs c.sysA) (sigs c.sysB)
        ∧ c.severity
          = (if calculate_compatibility_score (sigs c.sysA) (sigs c.sysB) < 25
             then "High" else "Medium") := by
    intro c
    rw [generate_conflicts, List.mem_flatMap]
    constructor
    · rintro ⟨a, ha, hfc⟩
      rw [List.mem_filterMap] at hfc
      obtain ⟨b, hb, hfb⟩ := hfc
      by_cases hab : a < b
      · rw [if_pos hab] at hfb
        by_cases hsc : calculate_compatibility_score (sigs a) (sigs b) < 50
        · rw [if_pos hsc] at hfb
          obtain rfl := Option.some.inj hfb
          exact ⟨ha, hb, hab, hsc, rfl, rfl⟩
        · rw [if_neg hsc] at hfb
          exact Option.noConfusion hfb
      · rw [if_neg hab] at hfb
        exact Option.noConfusion hfb
    · rintro ⟨ha, hb, hab, hsc, hscore, hsev⟩
      obtain ⟨ca, cb, cs, cv⟩ := c
      simp only at ha hb hab hsc hscore hsev
      refine ⟨ca, ha, ?_⟩
      rw [List.mem_filterMap]
      refine ⟨cb, hb, ?_⟩
      rw [if_pos hab, if_pos hsc, hscore, hsev]
  constructor
  · constructor
    · rintro ⟨c, hc, hA, hB⟩
      obtain ⟨hma, hmb, hab, hsc, hs5, hs6⟩ := (hmem c).mp hc
      subst hA
      subst hB
      exact ⟨hab, hsc⟩
    · rintro ⟨hab, hsc⟩
      refine ⟨⟨s1, s2, calculate_compatibility_score (sigs s1) (sigs s2),
        if calculate_compatibility_score (sigs s1) (sigs s2) < 25
        then "High" else "Medium"⟩, ?_, rfl, rfl⟩
      exact (hmem _).mpr ⟨h1, h2, hab, hsc, rfl, rfl⟩
  · intro c hc
    obtain ⟨hma, hmb, hab, hsc, hscore, hsev⟩ := (hmem c).mp hc
    refine ⟨hscore, hab, hscore ▸ hsc, ?_, ?_⟩
    · rw [hsev, hscore]
      by_cases h25 : calculate_compatibility_score (sigs c.sysA) (sigs c.sysB) < 25
      · rw [if_pos h25]
        exact iff_of_true rfl h25
      · rw [if_neg h25]
        exact iff_of_false (by decide) h25
    · rw [hsev, hscore]
      by_cases h25 : calculate_compatibility_score (sigs c.sysA) (sigs c.sysB) < 25
      · rw [if_pos h25]
        exact iff_of_false (by decide) (fun hh => absurd h25 (not_lt.mpr hh.1))
      · rw [if_neg h25]
        exact iff_of_true rfl ⟨not_lt.mp h25, hsc⟩

/-- Witness for C7 at a concrete input: two registered systems, the first
probing one function name and the second none, so the pair scores 0 and
is reported with High severity. -/
theorem generate_conflicts_spec_witness :
    ((∃ c ∈ generate_conflicts ["A", "B"] sigsOneEmpty,
        c.sysA = "A" ∧ c.sysB = "B")
        ↔ "A" < "B"
          ∧ calculate_compatibility_score (sigsOneEmpty "A") (sigsOneEmpty "B")
            < 50)
      ∧ ∀ c ∈ generate_conflicts ["A", "B"] sigsOneEmpty,
          c.score
            = calculate_compatibility_score (sigsOneEmpty c.sysA)
                (sigsOneEmpty c.sysB)
            ∧ c.sysA < c.sysB
            ∧ c.score < 50
            ∧ (c.severity = "High" ↔ c.score < 25)
            ∧ (c.severity = "Medium" ↔ 25 ≤ c.score ∧ c.score < 50) :=
  generate_conflicts_spec ["A", "B"] sigsOneEmpty "A" "B"
    (by simp) (by simp)

/-- C10: with exactly one readable content, synthesize_content returns
that raw text unchanged: no guard, provenance comment or sections are
added. -/
theorem synthesize_content_single_source (joinOrd : List String → List String)
    (filename sys content : String) :
    synthesize_content joinOrd filename [(sys, content)] = content := rfl

/-- C4 (amended): a synthesized artifact consists, in this fixed order,
of the provenance header comment, then the opening guard, then a fixed
system-configuration block, then the Macro, TypeAlias and FunctionDecl
sections, then the closing guard; each section is ordered by ascending
symbol name, and its symbol names are exactly the names extracted from
the contributing contents. -/
theorem synthesize_content_layout (joinOrd : List String → List String)
    (filename : String) (contents : List (String × String))
    (h : 2 ≤ contents.length) :
    synthesize_content joinOrd filename contents
      = concatAll (headerPieces filename contents
          ++ guardOpenPieces filename
          ++ systemConfigPieces
          ++ ("/* Definitions */\n" :: defineLines joinOrd contents)
          ++ ("\n/* Type definitions */\n" :: typedefLines joinOrd contents)
          ++ ("\n/* Function declarations */\n" :: funcLines joinOrd contents)
          ++ [guardClosePiece filename])
      ∧ (macroSectionNames contents).Sorted (· ≤ ·)
      ∧ (typeAliasSectionNames contents).Sorted (· ≤ ·)
      ∧ (functionSectionNames contents).Sorted (· ≤ ·)
      ∧ (∀ x, x ∈ macroSectionNames contents
            ↔ ∃ sc ∈ contents, x ∈ extractDefines sc.2)
      ∧ (∀ x, x ∈ typeAliasSectionNames contents
            ↔ ∃ sc ∈ contents, x ∈ extractTypedefs sc.2)
      ∧ (∀ x, x ∈ functionSectionNames contents
            ↔ ∃ sc ∈ contents, x ∈ extractFunctions sc.2) := by
  have hsortmap : ∀ ext : String → List String,
      ((sortByName (buildIndex ext contents)).map Prod.fst).Sorted (· ≤ ·) :=
    fun ext =>
      List.Pairwise.map Prod.fst (fun a b hab => hab)
        (sortByName_sorted (buildIndex ext contents))
  have hmemmap : ∀ (ext : String → List String) (x : String),
      x ∈ (sortByName (buildIndex ext contents)).map Prod.fst
        ↔ ∃ sc ∈ contents, x ∈ ext sc.2 := by
    intro ext x
    rw [keys_sortByName, keys_buildIndex]
  refine ⟨?_, hsortmap extractDefines, hsortmap extractTypedefs,
    hsortmap extractFunctions, hmemmap extractDefines,
    hmemmap extractTypedefs, hmemmap extractFunctions⟩
  rw [synthesize_content, if_neg (by omega : ¬ contents.length = 1)]

/-- Witness for C4 at a concrete two-source input. -/
theorem synthesize_content_layout_witness :
    (synthesize_content (fun l => l) "port.h" contentsTwoMacros
      = concatAll (headerPieces "port.h" contentsTwoMacros
          ++ guardOpenPieces "port.h"
          ++ systemConfigPieces
          ++ ("/* Definitions */\n"
              :: defineLines (fun l => l) contentsTwoMacros)
          ++ ("\n/* Type definitions */\n"
              :: typedefLines (fun l => l) contentsTwoMacros)
          ++ ("\n/* Function declarations */\n"
              :: funcLines (fun l => l) contentsTwoMacros)
          ++ [guardClosePiece "port.h"]))
      ∧ (macroSectionNames contentsTwoMacros).Sorted (· ≤ ·)
      ∧ (typeAliasSectionNames contentsTwoMacros).Sorted (· ≤ ·)
      ∧ (functionSectionNames contentsTwoMacros).Sorted (· ≤ ·)
      ∧ (∀ x, x ∈ macroSectionNames contentsTwoMacros
            ↔ ∃ sc ∈ contentsTwoMacros, x ∈ extractDefines sc.2)
      ∧ (∀ x, x ∈ typeAliasSectionNames contentsTwoMacros
            ↔ ∃ sc ∈ contentsTwoMacros, x ∈ extractTypedefs sc.2)
      ∧ (∀ x, x ∈ functionSectionNames contentsTwoMacros
            ↔ ∃ sc ∈ contentsTwoMacros, x ∈ extractFunctions sc.2) :=
  synthesize_content_layout (fun l => l) "port.h" contentsTwoMacros
    (by decide)

/-- Counterexample to C4 as stated: on a concrete two-source input the
synthesized text does not begin with the opening guard; it begins with
the provenance header comment. -/
theorem synthesize_content_guard_not_first :
    pyHasPre "#ifndef"
        (synthesize_content (fun l => l) "port.h" contentsTwoMacros) = false
      ∧ pyHasPre "/*\n"
        (synthesize_content (fun l => l) "port.h" contentsTwoMacros) = true := by
  decide

/-- C8 (amended): of several matching paths for one source tree, the code
reads the first entry of the traversal order the external search reports;
that entry is the lexicographically smallest match only when the reported
order is sorted. -/
theorem selectedPath_first_of_traversal (p : String) (ps : List String)
    (hp : p ≠ "") (hs : (p :: ps).Sorted (· ≤ ·)) :
    selectedPath (p :: ps) = some p ∧ ∀ q ∈ p :: ps, p ≤ q := by
  refine ⟨by simp [selectedPath, hp], ?_⟩
  intro q hq
  rcases List.mem_cons.mp hq with rfl | hq'
  · exact le_refl q
  · exact (List.sorted_cons.mp hs).1 q hq'

/-- Witness for C8 at a concrete sorted traversal. -/
theorem selectedPath_first_of_traversal_witness :
    selectedPath ["a/port.h", "b/port.h"] = some "a/port.h"
      ∧ ∀ q ∈ ["a/port.h", "b/port.h"], "a/port.h" ≤ q :=
  selectedPath_first_of_traversal "a/port.h" ["b/port.h"] (by decide)
    (by simp [List.sorted_cons]; decide)

/-- Counterexample to C8 as stated: a traversal order listing the
lexicographically larger match first makes the code select a path that is
not the lexicographically smallest match. -/
theorem selectedPath_not_lexicographic :
    selectedPath ["b/port.h", "a/port.h"] = some "b/port.h"
      ∧ "a/port.h" ∈ ["b/port.h", "a/port.h"]
      ∧ "a/port.h" < "b/port.h" :=
  ⟨rfl, by decide, String.lt_iff_toList_lt.mpr (by decide)⟩

set_option maxRecDepth 8000 in
set_option maxHeartbeats 2000000 in
/-- C1: on an input where FOO is contributed by both sources, the
resolution loop emits the first directive line whose identifier merely
begins with FOO, here the FOOBAR line of the first source, instead of the
FOO definition body of the first source in priority order; that body
never reaches the synthesized output at all. -/
theorem define_resolution_prefix_collision :
    buildIndex extractDefines contentsPrefixClash
        = [("FOOBAR", ["mach"]), ("FOO", ["mach", "lites"])]
      ∧ defineNameOfLine ("#define FOO 2".toList) = some "FOO"
      ∧ resolveFirst defineSearch "FOO" ["mach", "lites"] contentsPrefixClash
        = some "#define FOOBAR 1"
      ∧ pyHasSubstr "#define FOO 2"
          (synthesize_content (fun l => l) "mach.h" contentsPrefixClash)
        = false := by
  decide

set_option maxRecDepth 8000 in
set_option maxHeartbeats 2000000 in
/-- C2: two valid enumerations of the same contributor set give
byte-different synthesized outputs, so the output is not a function of
the inputs alone; the code renders the set in Python set iteration order,
which varies between runs. -/
theorem synthesize_content_depends_on_set_order :
    (∀ l : List String, (List.reverse l).Perm l)
      ∧ synthesize_content (fun l => l) "mach.h" contentsShared
        ≠ synthesize_content (fun l => List.reverse l) "mach.h" contentsShared := by
  refine ⟨fun l => List.reverse_perm l, ?_⟩
  decide

set_option maxRecDepth 8000 in
set_option maxHeartbeats 2000000 in
/-- C3: on an input where FOO comes from exactly one source, the
synthesized artifact does not contain the FOO definition body verbatim,
because the resolution search matches the earlier FOOBAR line by name
prefix. -/
theorem single_source_body_not_verbatim :
    buildIndex extractDefines contentsSingleClash
        = [("FOOBAR", ["mach"]), ("FOO", ["mach"]), ("BAZ", ["lites"])]
      ∧ pyHasSubstr "#define FOO 2"
          (synthesize_content (fun l => l) "mach.h" contentsSingleClash)
        = false := by
  decide

/-- C5: the guard token derivation keeps every non-alphanumeric character
other than the dot and maps the distinct artifact names a.h and a_h to
the same token, so it is not injective. -/
theorem guardToken_not_injective :
    guardToken "a.h" = guardToken "a_h"
      ∧ "a.h" ≠ "a_h"
      ∧ guardToken "a.h" = "_SYNTHESIZED_A_H_"
      ∧ guardToken "a-b.h" = "_SYNTHESIZED_A-B_H_" := by
  decide

set_option maxRecDepth 8000 in
set_option maxHeartbeats 2000000 in
/-- C9: a name declared both as a macro and as a function declaration is
emitted twice within one artifact, and synthesis completes normally with
both bodies in the output; no invariant violation is raised anywhere in
the code. -/
theorem duplicate_name_emitted_without_violation :
    emittedSymbolNames contentsDupKind = ["bar", "foo", "foo"]
      ∧ (emittedSymbolNames contentsDupKind).count "foo" = 2
      ∧ pyHasSubstr "#define foo 1"
          (synthesize_content (fun l => l) "foo.h" contentsDupKind) = true
      ∧ pyHasSubstr "foo(void);"
          (synthesize_content (fun l => l) "foo.h" contentsDupKind) = true := by
  decide

end MachR
